import Mathlib

set_option autoImplicit false

/-!
Shallow embedding of the wallet persistence and recovery subsystem of the
`windery/ethereum-monitor` repository (src/wallet/wallets.ts), together with
the transfer request construction of src/tests/test-transfer.ts.

Modelling conventions:
* A directory (`Dir`) is the association list of its entries, filename to
  file content, in the order `fs.readdirSync` enumerates them.
* The filesystem (`FS`) is the association list of directory paths to
  directories.
* `JSON.stringify` of a `WalletData` followed by a later `JSON.parse` is the
  identity on `WalletData`; a file whose bytes fail `JSON.parse` is
  `FileContent.malformed`, and a file whose `readFileSync` raises is
  `FileContent.unreadable`.
* `ethers.HDNodeWallet.fromPhrase` is an explicit parameter
  `fromPhrase : String → HDNodeWallet`: the SDK's deterministic derivation
  of a key-pair from a mnemonic phrase.
* `console.error` logging is modelled by an explicit list of logged file
  paths returned next to the result.
-/

namespace EthereumMonitor

/-- WalletData interface of wallets.ts: address, privateKey, publicKey and
the optional mnemonic phrase. -/
structure WalletData where
  address : String
  privateKey : String
  publicKey : String
  phrase : Option String
deriving DecidableEq

/-- An ethers HDNodeWallet as the subsystem observes it: its address, key
pair, and the phrase of its mnemonic when one is attached (`wallet.mnemonic`
is nullable; only its `.phrase` field is ever read). -/
structure HDNodeWallet where
  address : String
  privateKey : String
  publicKey : String
  mnemonic : Option String
deriving DecidableEq

/-- Content of one file in a wallet directory: a byte string that parses as
a `WalletData` JSON object, one that `JSON.parse` rejects, or one whose read
itself fails. -/
inductive FileContent where
  | record (wd : WalletData)
  | malformed (raw : String)
  | unreadable
deriving DecidableEq

/-- A directory: filenames paired with their contents, in enumeration
order. -/
abbrev Dir := List (String × FileContent)

/-- The filesystem: directory paths paired with directories. -/
abbrev FS := List (String × Dir)

/-- JavaScript `s.endsWith(suffix)`: the suffix's characters end the
string's characters. Used at wallets.ts line 98. -/
def strEndsWith (s suffix : String) : Bool :=
  List.isSuffixOf suffix.data s.data

/-- JavaScript truthiness of the optional `phrase` string: `undefined` and
the empty string are falsy, every other string is truthy. -/
def truthyPhrase : Option String → Bool
  | none => false
  | some s => !(s = "")

/-- First entry of the directory with the given filename, as file lookup
sees it. -/
def Dir.findFile : Dir → String → Option FileContent
  | [], _ => none
  | e :: es, name => if e.1 = name then some e.2 else Dir.findFile es name

/-- `fs.writeFileSync` inside an existing directory: replace the entry with
that filename, or append a fresh entry. -/
def Dir.writeFile : Dir → String → FileContent → Dir
  | [], name, c => [(name, c)]
  | e :: es, name, c =>
      if e.1 = name then (name, c) :: es else e :: Dir.writeFile es name c

/-- The directory stored at a path, when the path exists. -/
def FS.lookupDir : FS → String → Option Dir
  | [], _ => none
  | e :: es, path => if e.1 = path then some e.2 else FS.lookupDir es path

/-- `fs.existsSync` on a directory path. -/
def FS.existsDir (fs : FS) (path : String) : Bool :=
  (FS.lookupDir fs path).isSome

/-- `fs.existsSync` on the path `<dirPath>/<name>` of a file. -/
def FS.existsFile (fs : FS) (dirPath name : String) : Bool :=
  match FS.lookupDir fs dirPath with
  | none => false
  | some d => (Dir.findFile d name).isSome

/-- Store a directory at a path, replacing any directory already there. -/
def FS.setDir : FS → String → Dir → FS
  | [], path, d => [(path, d)]
  | e :: es, path, d =>
      if e.1 = path then (path, d) :: es else e :: FS.setDir es path d

/-- getWalletData of wallets.ts: project a live wallet to its serializable
record; `phrase` is `wallet.mnemonic?.phrase`. -/
def getWalletData (wallet : HDNodeWallet) : WalletData :=
  { address := wallet.address
    privateKey := wallet.privateKey
    publicKey := wallet.publicKey
    phrase := wallet.mnemonic }

/-- saveWallets of wallets.ts: create the directory when absent
(`mkdirSync` yields an empty directory), then write each wallet's record as
JSON to `<walletsDir>/<address>.json`, overwriting silently. -/
def saveWallets (wallets : List HDNodeWallet) (walletsDir : String) (fs : FS) : FS :=
  let d0 := match FS.lookupDir fs walletsDir with
    | some d => d
    | none => ([] : Dir)
  let d1 := wallets.foldl
    (fun d wallet =>
      Dir.writeFile d (wallet.address ++ ".json")
        (FileContent.record (getWalletData wallet)))
    d0
  FS.setDir fs walletsDir d1

/-- Body of the `forEach` callback in loadWallets of wallets.ts: skip
non-`.json` names, then try to read and parse the file; push a wallet
re-derived from a truthy phrase, log the path on read or parse failure. -/
def loadStep (fromPhrase : String → HDNodeWallet) (walletsDir : String)
    (acc : List HDNodeWallet × List String) (entry : String × FileContent) :
    List HDNodeWallet × List String :=
  if strEndsWith entry.1 ".json" then
    match entry.2 with
    | FileContent.record walletData =>
        match walletData.phrase with
        | some p => if p = "" then acc else (acc.1 ++ [fromPhrase p], acc.2)
        | none => acc
    | FileContent.malformed _ => (acc.1, acc.2 ++ [walletsDir ++ "/" ++ entry.1])
    | FileContent.unreadable => (acc.1, acc.2 ++ [walletsDir ++ "/" ++ entry.1])
  else acc

/-- loadWallets of wallets.ts: empty result when the directory does not
exist; otherwise fold the per-file callback over the enumerated entries.
First component: the recovered wallets; second: the logged failing paths. -/
def loadWallets (fromPhrase : String → HDNodeWallet) (walletsDir : String)
    (fs : FS) : List HDNodeWallet × List String :=
  match FS.lookupDir fs walletsDir with
  | none => ([], [])
  | some entries => entries.foldl (loadStep fromPhrase walletsDir) ([], [])

/-- loadWallet of wallets.ts: look up `<walletsDir>/<walletAddress>.json`
directly; `null` when the file is missing, when the record's phrase is not
truthy, or (after logging) when reading or parsing fails; otherwise the
wallet re-derived from the phrase. First component: the returned wallet or
`null`; second: the logged failing paths. -/
def loadWallet (fromPhrase : String → HDNodeWallet) (walletAddress : String)
    (walletsDir : String) (fs : FS) : Option HDNodeWallet × List String :=
  match FS.lookupDir fs walletsDir with
  | none => (none, [])
  | some d =>
      match Dir.findFile d (walletAddress ++ ".json") with
      | none => (none, [])
      | some (FileContent.record walletData) =>
          match walletData.phrase with
          | some p => if p = "" then (none, []) else (some (fromPhrase p), [])
          | none => (none, [])
      | some (FileContent.malformed _) =>
          (none, [walletsDir ++ "/" ++ walletAddress ++ ".json"])
      | some FileContent.unreadable =>
          (none, [walletsDir ++ "/" ++ walletAddress ++ ".json"])

/-! ### Basic lemmas about the filesystem model -/

theorem Dir.findFile_writeFile_self (d : Dir) (name : String) (c : FileContent) :
    Dir.findFile (Dir.writeFile d name c) name = some c := by
  induction d with
  | nil => simp [Dir.writeFile, Dir.findFile]
  | cons e es ih =>
      by_cases h : e.1 = name
      · simp [Dir.writeFile, h, Dir.findFile]
      · simp [Dir.writeFile, h, Dir.findFile, ih]

theorem FS.lookupDir_setDir_self (fs : FS) (path : String) (d : Dir) :
    FS.lookupDir (FS.setDir fs path d) path = some d := by
  induction fs with
  | nil => simp [FS.setDir, FS.lookupDir]
  | cons e es ih =>
      by_cases h : e.1 = path
      · simp [FS.setDir, h, FS.lookupDir]
      · simp [FS.setDir, h, FS.lookupDir, ih]

/-! ### A filterMap characterization of the bulk load -/

/-- Wallet contributed by one directory entry during the bulk load, if
any: the entry must have a `.json` name, parse as a record, and carry a
truthy phrase. -/
def entryWallet (fromPhrase : String → HDNodeWallet) (entry : String × FileContent) :
    Option HDNodeWallet :=
  if strEndsWith entry.1 ".json" then
    match entry.2 with
    | FileContent.record wd =>
        match wd.phrase with
        | some p => if p = "" then none else some (fromPhrase p)
        | none => none
    | FileContent.malformed _ => none
    | FileContent.unreadable => none
  else none

/-- Path logged for one directory entry during the bulk load, if any: only
a `.json`-named entry whose read or parse fails is logged. -/
def entryLog (walletsDir : String) (entry : String × FileContent) : Option String :=
  if strEndsWith entry.1 ".json" then
    match entry.2 with
    | FileContent.record _ => none
    | FileContent.malformed _ => some (walletsDir ++ "/" ++ entry.1)
    | FileContent.unreadable => some (walletsDir ++ "/" ++ entry.1)
  else none

theorem loadStep_eq (fromPhrase : String → HDNodeWallet) (walletsDir : String)
    (acc : List HDNodeWallet × List String) (e : String × FileContent) :
    loadStep fromPhrase walletsDir acc e
      = (acc.1 ++ (entryWallet fromPhrase e).toList,
         acc.2 ++ (entryLog walletsDir e).toList) := by
  rcases e with ⟨name, c⟩
  by_cases h : strEndsWith name ".json" = true
  · cases c with
    | record wd =>
        rcases hw : wd.phrase with _ | p
        · simp [loadStep, entryWallet, entryLog, h, hw]
        · by_cases hp : p = "" <;> simp [loadStep, entryWallet, entryLog, h, hw, hp]
    | malformed raw => simp [loadStep, entryWallet, entryLog, h]
    | unreadable => simp [loadStep, entryWallet, entryLog, h]
  · simp [loadStep, entryWallet, entryLog, h]

theorem foldl_loadStep_eq (fromPhrase : String → HDNodeWallet) (walletsDir : String)
    (d : Dir) (acc : List HDNodeWallet × List String) :
    d.foldl (loadStep fromPhrase walletsDir) acc
      = (acc.1 ++ d.filterMap (entryWallet fromPhrase),
         acc.2 ++ d.filterMap (entryLog walletsDir)) := by
  induction d generalizing acc with
  | nil => simp
  | cons e es ih =>
      rw [List.foldl_cons, loadStep_eq, ih]
      rcases hw : entryWallet fromPhrase e with _ | w <;>
        rcases hl : entryLog walletsDir e with _ | l <;>
          simp [List.filterMap_cons, hw, hl]

theorem loadWallets_eq (fromPhrase : String → HDNodeWallet) (walletsDir : String)
    (fs : FS) (d : Dir) (hd : FS.lookupDir fs walletsDir = some d) :
    loadWallets fromPhrase walletsDir fs
      = (d.filterMap (entryWallet fromPhrase), d.filterMap (entryLog walletsDir)) := by
  simp only [loadWallets, hd]
  simpa using foldl_loadStep_eq fromPhrase walletsDir d ([], [])

/-! ### Claim C1 -/

/-- C1: a freshly generated HD wallet carrying a mnemonic phrase, saved
with saveWallets into a directory, is recovered by loadWallet at its
address from that directory as a wallet whose address, public key and
private key equal the original's. The hypotheses on `fromPhrase` state the
SDK's HD-derivation guarantee for a wallet generated together with its
phrase. -/
theorem saveWallets_loadWallet_roundtrip
    (fromPhrase : String → HDNodeWallet) (fs : FS) (walletsDir : String)
    (w : HDNodeWallet) (p : String)
    (hm : w.mnemonic = some p) (hp : p ≠ "")
    (ha : (fromPhrase p).address = w.address)
    (hk : (fromPhrase p).publicKey = w.publicKey)
    (hs : (fromPhrase p).privateKey = w.privateKey) :
    ∃ w2 : HDNodeWallet,
      (loadWallet fromPhrase w.address walletsDir (saveWallets [w] walletsDir fs)).1 = some w2
      ∧ w2.address = w.address ∧ w2.publicKey = w.publicKey
      ∧ w2.privateKey = w.privateKey := by
  refine ⟨fromPhrase p, ?_, ha, hk, hs⟩
  unfold saveWallets loadWallet
  simp [FS.lookupDir_setDir_self, Dir.findFile_writeFile_self, getWalletData, hm, hp]

/-- Witness for C1 at a concrete wallet and derivation function. -/
theorem saveWallets_loadWallet_roundtrip_witness :
    ∃ w2 : HDNodeWallet,
      (loadWallet (fun q => ⟨"0xA", "priv", "pub", some q⟩) "0xA" "wallets"
        (saveWallets [⟨"0xA", "priv", "pub", some "test seed"⟩] "wallets" [])).1 = some w2
      ∧ w2.address = "0xA" ∧ w2.publicKey = "pub" ∧ w2.privateKey = "priv" :=
  saveWallets_loadWallet_roundtrip (fun q => ⟨"0xA", "priv", "pub", some q⟩) []
    "wallets" ⟨"0xA", "priv", "pub", some "test seed"⟩ "test seed" rfl
    (by decide) rfl rfl rfl

/-- Helper: when `<walletsDir>/<walletAddress>.json` does not exist, the
single lookup returns null and logs nothing. -/
theorem loadWallet_missing (fromPhrase : String → HDNodeWallet)
    (walletAddress walletsDir : String) (fs : FS)
    (h : FS.existsFile fs walletsDir (walletAddress ++ ".json") = false) :
    loadWallet fromPhrase walletAddress walletsDir fs = (none, []) := by
  unfold FS.existsFile at h
  rcases hd : FS.lookupDir fs walletsDir with _ | d
  · simp [loadWallet, hd]
  · simp only [hd] at h
    rcases hf : Dir.findFile d (walletAddress ++ ".json") with _ | c
    · simp [loadWallet, hd, hf]
    · rw [hf] at h
      simp at h

/-! ### Claim C5 -/

/-- C5: loadWallets on a path that does not exist as a directory returns
the empty sequence (and logs nothing) rather than raising. -/
theorem loadWallets_missing_dir (fromPhrase : String → HDNodeWallet)
    (walletsDir : String) (fs : FS) (h : FS.lookupDir fs walletsDir = none) :
    loadWallets fromPhrase walletsDir fs = ([], []) := by
  simp [loadWallets, h]

/-- Witness for C5 on the empty filesystem. -/
theorem loadWallets_missing_dir_witness :
    loadWallets (fun q => ⟨q, q, q, none⟩) "nowhere" [] = ([], []) :=
  loadWallets_missing_dir (fun q => ⟨q, q, q, none⟩) "nowhere" [] rfl

/-! ### Claim C4 -/

/-- C4: loadWallet returns null and never raises, both when the file
`<walletsDir>/<walletAddress>.json` does not exist and when the file exists
but reading or parsing it fails; in the failure case the path is logged,
and the value handed to the caller is null in both cases. -/
theorem loadWallet_absent_or_corrupt
    (fromPhrase : String → HDNodeWallet) (walletAddress walletsDir : String)
    (fs : FS) :
    (FS.existsFile fs walletsDir (walletAddress ++ ".json") = false →
        loadWallet fromPhrase walletAddress walletsDir fs = (none, []))
    ∧ (∀ d : Dir, FS.lookupDir fs walletsDir = some d →
        (Dir.findFile d (walletAddress ++ ".json") = some FileContent.unreadable
          ∨ ∃ raw, Dir.findFile d (walletAddress ++ ".json")
              = some (FileContent.malformed raw)) →
        loadWallet fromPhrase walletAddress walletsDir fs
          = (none, [walletsDir ++ "/" ++ walletAddress ++ ".json"])) := by
  constructor
  · exact loadWallet_missing fromPhrase walletAddress walletsDir fs
  · rintro d hd (hf | ⟨raw, hf⟩) <;> simp [loadWallet, hd, hf]

/-- Witness for C4: one directory without the requested file, one with a
malformed file at the requested address. -/
theorem loadWallet_absent_or_corrupt_witness :
    loadWallet (fun q => ⟨q, q, q, none⟩) "0xB" "w"
        [("w", [("0xC.json", FileContent.record ⟨"0xC", "k", "K", none⟩)])]
      = (none, [])
    ∧ loadWallet (fun q => ⟨q, q, q, none⟩) "0xC" "w"
        [("w", [("0xC.json", FileContent.malformed "oops")])]
      = (none, ["w" ++ "/" ++ "0xC" ++ ".json"]) :=
  ⟨(loadWallet_absent_or_corrupt (fun q => ⟨q, q, q, none⟩) "0xB" "w"
      [("w", [("0xC.json", FileContent.record ⟨"0xC", "k", "K", none⟩)])]).1
      (by decide),
   (loadWallet_absent_or_corrupt (fun q => ⟨q, q, q, none⟩) "0xC" "w"
      [("w", [("0xC.json", FileContent.malformed "oops")])]).2
      [("0xC.json", FileContent.malformed "oops")] (by decide)
      (Or.inr ⟨"oops", by decide⟩)⟩

/-! ### Claim C9 -/

/-- C9: loadWallet never checks the recovered wallet against the requested
address: a record file at `<walletAddress>.json` whose phrase derives a
wallet with a different address is returned non-null, with an address that
differs from the argument. -/
theorem loadWallet_no_address_check
    (fromPhrase : String → HDNodeWallet) (walletAddress walletsDir : String)
    (fs : FS) (d : Dir) (wd : WalletData) (p : String)
    (hd : FS.lookupDir fs walletsDir = some d)
    (hf : Dir.findFile d (walletAddress ++ ".json") = some (FileContent.record wd))
    (hph : wd.phrase = some p) (hp : p ≠ "")
    (hne : (fromPhrase p).address ≠ walletAddress) :
    (loadWallet fromPhrase walletAddress walletsDir fs).1 = some (fromPhrase p)
    ∧ (fromPhrase p).address ≠ walletAddress := by
  refine ⟨?_, hne⟩
  simp [loadWallet, hd, hf, hph, hp]

/-- Witness for C9: the stored phrase derives address `0xD`, looked up
under `0xC`. -/
theorem loadWallet_no_address_check_witness :
    (loadWallet (fun q => ⟨"0xD", "k", "K", some q⟩) "0xC" "w"
        [("w", [("0xC.json", FileContent.record ⟨"0xC", "k2", "K2", some "seed"⟩)])]).1
      = some ⟨"0xD", "k", "K", some "seed"⟩
    ∧ HDNodeWallet.address ⟨"0xD", "k", "K", some "seed"⟩ ≠ "0xC" :=
  loadWallet_no_address_check (fun q => ⟨"0xD", "k", "K", some q⟩) "0xC" "w"
    [("w", [("0xC.json", FileContent.record ⟨"0xC", "k2", "K2", some "seed"⟩)])]
    [("0xC.json", FileContent.record ⟨"0xC", "k2", "K2", some "seed"⟩)]
    ⟨"0xC", "k2", "K2", some "seed"⟩ "seed" (by decide) (by decide) rfl
    (by decide) (by decide)

/-! ### Claim C10 -/

/-- C10: a record file that exists and parses but has no phrase field makes
loadWallet return null with no log, the same observable outcome as for any
filesystem in which the file is missing. -/
theorem loadWallet_phraseless_is_notfound
    (fromPhrase : String → HDNodeWallet) (walletAddress walletsDir : String)
    (fs : FS) (d : Dir) (wd : WalletData)
    (hd : FS.lookupDir fs walletsDir = some d)
    (hf : Dir.findFile d (walletAddress ++ ".json") = some (FileContent.record wd))
    (hph : wd.phrase = none) :
    loadWallet fromPhrase walletAddress walletsDir fs = (none, [])
    ∧ ∀ fs2 : FS, FS.existsFile fs2 walletsDir (walletAddress ++ ".json") = false →
        loadWallet fromPhrase walletAddress walletsDir fs2
          = loadWallet fromPhrase walletAddress walletsDir fs := by
  have h1 : loadWallet fromPhrase walletAddress walletsDir fs = (none, []) := by
    simp [loadWallet, hd, hf, hph]
  refine ⟨h1, fun fs2 h2 => ?_⟩
  rw [h1, loadWallet_missing fromPhrase walletAddress walletsDir fs2 h2]

/-- Witness for C10 at a concrete phraseless record. -/
theorem loadWallet_phraseless_is_notfound_witness :
    loadWallet (fun q => ⟨q, q, q, none⟩) "0xC" "w"
        [("w", [("0xC.json", FileContent.record ⟨"0xC", "k", "K", none⟩)])]
      = (none, [])
    ∧ ∀ fs2 : FS, FS.existsFile fs2 "w" ("0xC" ++ ".json") = false →
        loadWallet (fun q => ⟨q, q, q, none⟩) "0xC" "w" fs2
          = loadWallet (fun q => ⟨q, q, q, none⟩) "0xC" "w"
              [("w", [("0xC.json", FileContent.record ⟨"0xC", "k", "K", none⟩)])] :=
  loadWallet_phraseless_is_notfound (fun q => ⟨q, q, q, none⟩) "0xC" "w"
    [("w", [("0xC.json", FileContent.record ⟨"0xC", "k", "K", none⟩)])]
    [("0xC.json", FileContent.record ⟨"0xC", "k", "K", none⟩)]
    ⟨"0xC", "k", "K", none⟩ (by decide) (by decide) rfl

/-- Helper: a directory entry only ever contributes a wallet to the bulk
load when it parses as a record with a truthy phrase, and the wallet is the
one derived from that phrase. -/
theorem entryWallet_eq_some (fromPhrase : String → HDNodeWallet)
    (e : String × FileContent) (w : HDNodeWallet)
    (h : entryWallet fromPhrase e = some w) :
    ∃ (wd : WalletData) (p : String),
      e.2 = FileContent.record wd ∧ wd.phrase = some p ∧ p ≠ ""
      ∧ w = fromPhrase p := by
  obtain ⟨name, c⟩ := e
  unfold entryWallet at h
  by_cases hj : strEndsWith name ".json" = true
  · rw [if_pos hj] at h
    cases c with
    | record wd =>
        rcases hp : wd.phrase with _ | p
        · simp [hp] at h
        · by_cases hpe : p = ""
          · simp [hp, hpe] at h
          · simp only [hp] at h
            rw [if_neg hpe] at h
            exact ⟨wd, p, rfl, hp, hpe, (Option.some_inj.mp h).symm⟩
    | malformed raw => simp at h
    | unreadable => simp at h
  · rw [if_neg hj] at h
    cases h

/-! ### Claim C3 -/

/-- C3: a record file without a phrase field is excluded from the bulk load
without making it fail — inserting such an entry anywhere in the directory
leaves the result (wallets and logs) unchanged — and every wallet the bulk
load returns is derived from a record entry that carries a truthy
phrase. -/
theorem loadWallets_skips_phraseless
    (fromPhrase : String → HDNodeWallet) (walletsDir name : String) (fs : FS)
    (d1 d2 : Dir) (wd : WalletData) (hph : wd.phrase = none) :
    loadWallets fromPhrase walletsDir
        (FS.setDir fs walletsDir (d1 ++ (name, FileContent.record wd) :: d2))
      = loadWallets fromPhrase walletsDir (FS.setDir fs walletsDir (d1 ++ d2))
    ∧ ∀ (fs2 : FS) (d : Dir), FS.lookupDir fs2 walletsDir = some d →
        ∀ w ∈ (loadWallets fromPhrase walletsDir fs2).1,
          ∃ e ∈ d, ∃ (wd2 : WalletData) (p : String),
            e.2 = FileContent.record wd2 ∧ wd2.phrase = some p ∧ p ≠ ""
            ∧ w = fromPhrase p := by
  constructor
  · rw [loadWallets_eq fromPhrase walletsDir _ _ (FS.lookupDir_setDir_self fs walletsDir _),
      loadWallets_eq fromPhrase walletsDir _ _ (FS.lookupDir_setDir_self fs walletsDir _)]
    have hw : entryWallet fromPhrase (name, FileContent.record wd) = none := by
      unfold entryWallet
      split
      · simp [hph]
      · rfl
    have hl : entryLog walletsDir (name, FileContent.record wd) = none := by
      unfold entryLog
      split <;> rfl
    simp [List.filterMap_append, List.filterMap_cons, hw, hl]
  · intro fs2 d hd w hw
    rw [loadWallets_eq fromPhrase walletsDir fs2 d hd] at hw
    obtain ⟨e, he, hew⟩ := List.mem_filterMap.mp hw
    obtain ⟨wd2, p, hc, hp2, hpe, hwp⟩ := entryWallet_eq_some fromPhrase e w hew
    exact ⟨e, he, wd2, p, hc, hp2, hpe, hwp⟩

/-- Witness for C3: a phraseless record `0xB.json` next to a phrase-bearing
record `0xA.json`. -/
theorem loadWallets_skips_phraseless_witness :
    loadWallets (fun q => ⟨q, "pk", "PK", none⟩) "w"
        (FS.setDir [] "w"
          ([("0xA.json", FileContent.record ⟨"0xA", "k", "K", some "s"⟩)]
            ++ ("0xB.json", FileContent.record ⟨"0xB", "k", "K", none⟩) :: []))
      = loadWallets (fun q => ⟨q, "pk", "PK", none⟩) "w"
          (FS.setDir [] "w"
            ([("0xA.json", FileContent.record ⟨"0xA", "k", "K", some "s"⟩)] ++ []))
    ∧ ∀ (fs2 : FS) (d : Dir), FS.lookupDir fs2 "w" = some d →
        ∀ w ∈ (loadWallets (fun q => ⟨q, "pk", "PK", none⟩) "w" fs2).1,
          ∃ e ∈ d, ∃ (wd2 : WalletData) (p : String),
            e.2 = FileContent.record wd2 ∧ wd2.phrase = some p ∧ p ≠ ""
            ∧ w = (fun q => (⟨q, "pk", "PK", none⟩ : HDNodeWallet)) p :=
  loadWallets_skips_phraseless (fun q => ⟨q, "pk", "PK", none⟩) "w" "0xB.json" []
    [("0xA.json", FileContent.record ⟨"0xA", "k", "K", some "s"⟩)] []
    ⟨"0xB", "k", "K", none⟩ rfl

/-- Helper: file lookup across a directory split around one entry. -/
theorem Dir.findFile_append_cons (d1 d2 : Dir) (name k : String) (c : FileContent) :
    Dir.findFile (d1 ++ (name, c) :: d2) k
      = match Dir.findFile d1 k with
        | some c0 => some c0
        | none => if name = k then some c else Dir.findFile d2 k := by
  induction d1 with
  | nil => simp [Dir.findFile]
  | cons e es ih =>
      by_cases h : e.1 = k <;> simp [Dir.findFile, h, ih]

/-! ### Claim C8 -/

/-- C8: recovery is a function of the stored phrase only — replacing a
record file's content by any record with the same phrase (in particular one
differing in privateKey, publicKey, or address) changes neither what
loadWallet nor what loadWallets returns. -/
theorem load_depends_only_on_phrase
    (fromPhrase : String → HDNodeWallet) (walletAddress walletsDir name : String)
    (fs : FS) (d1 d2 : Dir) (wd1 wd2 : WalletData)
    (hph : wd1.phrase = wd2.phrase) :
    loadWallet fromPhrase walletAddress walletsDir
        (FS.setDir fs walletsDir (d1 ++ (name, FileContent.record wd1) :: d2))
      = loadWallet fromPhrase walletAddress walletsDir
          (FS.setDir fs walletsDir (d1 ++ (name, FileContent.record wd2) :: d2))
    ∧ loadWallets fromPhrase walletsDir
        (FS.setDir fs walletsDir (d1 ++ (name, FileContent.record wd1) :: d2))
      = loadWallets fromPhrase walletsDir
          (FS.setDir fs walletsDir (d1 ++ (name, FileContent.record wd2) :: d2)) := by
  constructor
  · unfold loadWallet
    simp only [FS.lookupDir_setDir_self]
    rw [Dir.findFile_append_cons, Dir.findFile_append_cons]
    rcases hf : Dir.findFile d1 (walletAddress ++ ".json") with _ | c0
    · by_cases hn : name = walletAddress ++ ".json"
      · simp only [if_pos hn]
        rw [hph]
      · simp only [if_neg hn]
    · rfl
  · rw [loadWallets_eq fromPhrase walletsDir _ _ (FS.lookupDir_setDir_self fs walletsDir _),
      loadWallets_eq fromPhrase walletsDir _ _ (FS.lookupDir_setDir_self fs walletsDir _)]
    have hew : entryWallet fromPhrase (name, FileContent.record wd1)
        = entryWallet fromPhrase (name, FileContent.record wd2) := by
      simp only [entryWallet, hph]
    have hel : entryLog walletsDir (name, FileContent.record wd1)
        = entryLog walletsDir (name, FileContent.record wd2) := by
      simp only [entryLog]
    simp [List.filterMap_append, List.filterMap_cons, hew, hel]

/-- Witness for C8: two records sharing the phrase `s` but differing in
address and keys. -/
theorem load_depends_only_on_phrase_witness :
    loadWallet (fun q => ⟨q, "pk", "PK", some q⟩) "0xA" "w"
        (FS.setDir [] "w"
          ([] ++ ("0xA.json", FileContent.record ⟨"0xA", "k1", "K1", some "s"⟩) :: []))
      = loadWallet (fun q => ⟨q, "pk", "PK", some q⟩) "0xA" "w"
          (FS.setDir [] "w"
            ([] ++ ("0xA.json", FileContent.record ⟨"0xZ", "k2", "K2", some "s"⟩) :: []))
    ∧ loadWallets (fun q => ⟨q, "pk", "PK", some q⟩) "w"
        (FS.setDir [] "w"
          ([] ++ ("0xA.json", FileContent.record ⟨"0xA", "k1", "K1", some "s"⟩) :: []))
      = loadWallets (fun q => ⟨q, "pk", "PK", some q⟩) "w"
          (FS.setDir [] "w"
            ([] ++ ("0xA.json", FileContent.record ⟨"0xZ", "k2", "K2", some "s"⟩) :: [])) :=
  load_depends_only_on_phrase (fun q => ⟨q, "pk", "PK", some q⟩) "0xA" "w" "0xA.json"
    [] [] [] ⟨"0xA", "k1", "K1", some "s"⟩ ⟨"0xZ", "k2", "K2", some "s"⟩ rfl

/-- Helper: an entry of a directory after one file write is either an old
entry or the written file. -/
theorem Dir.mem_writeFile (d : Dir) (name : String) (c : FileContent)
    (e : String × FileContent) (he : e ∈ Dir.writeFile d name c) :
    e ∈ d ∨ e = (name, c) := by
  induction d with
  | nil => simpa [Dir.writeFile] using he
  | cons e0 es ih =>
      by_cases h : e0.1 = name
      · rw [Dir.writeFile, if_pos h] at he
        rcases List.mem_cons.mp he with h1 | h1
        · right
          exact h1
        · left
          exact List.mem_cons_of_mem _ h1
      · rw [Dir.writeFile, if_neg h] at he
        rcases List.mem_cons.mp he with h1 | h1
        · left
          rw [h1]
          exact List.mem_cons_self _ _
        · rcases ih h1 with h2 | h2
          · left
            exact List.mem_cons_of_mem _ h2
          · right
            exact h2

/-- Helper: an entry of the directory produced by the saveWallets write
loop is an old entry or the record file of one of the saved wallets, named
by that wallet's address. -/
theorem mem_saveFold (wallets : List HDNodeWallet) (d0 : Dir)
    (e : String × FileContent)
    (he : e ∈ wallets.foldl
        (fun d wallet => Dir.writeFile d (wallet.address ++ ".json")
          (FileContent.record (getWalletData wallet))) d0) :
    e ∈ d0 ∨ ∃ wd : WalletData, e.2 = FileContent.record wd
        ∧ e.1 = wd.address ++ ".json" ∧ ∃ w ∈ wallets, wd = getWalletData w := by
  induction wallets generalizing d0 with
  | nil =>
      left
      simpa using he
  | cons w ws ih =>
      rw [List.foldl_cons] at he
      rcases ih _ he with h1 | ⟨wd, h2, h3, w2, hw2, h4⟩
      · rcases Dir.mem_writeFile _ _ _ _ h1 with h2 | h2
        · left
          exact h2
        · right
          subst h2
          exact ⟨getWalletData w, rfl, rfl, w, List.mem_cons_self _ _, rfl⟩
      · right
        exact ⟨wd, h2, h3, w2, List.mem_cons_of_mem _ hw2, h4⟩

/-! ### Claim C7 -/

/-- C7: saveWallets writes, for each saved wallet, the file
`<address>.json` whose record content's address equals the filename stem —
every entry of the resulting directory is a pre-existing entry or such a
file — and an existing file for the same address is silently overwritten:
after saving two wallets sharing an address, the stored file holds the
second wallet's record only. -/
theorem saveWallets_store_invariant (wallets : List HDNodeWallet)
    (walletsDir : String) (fs : FS) :
    (∀ e ∈ (FS.lookupDir (saveWallets wallets walletsDir fs) walletsDir).getD [],
        e ∈ (FS.lookupDir fs walletsDir).getD []
        ∨ ∃ wd : WalletData, e.2 = FileContent.record wd
            ∧ e.1 = wd.address ++ ".json" ∧ ∃ w ∈ wallets, wd = getWalletData w)
    ∧ ∀ w1 w2 : HDNodeWallet, w1.address = w2.address →
        Dir.findFile
            ((FS.lookupDir (saveWallets [w1, w2] walletsDir fs) walletsDir).getD [])
            (w1.address ++ ".json")
          = some (FileContent.record (getWalletData w2)) := by
  constructor
  · intro e he
    simp only [saveWallets, FS.lookupDir_setDir_self, Option.getD_some] at he
    rcases mem_saveFold wallets _ e he with h1 | h2
    · left
      rcases hd : FS.lookupDir fs walletsDir with _ | d
      · simp only [hd] at h1
        simp at h1
      · simp only [hd] at h1
        simpa using h1
    · right
      exact h2
  · intro w1 w2 h
    simp only [saveWallets, FS.lookupDir_setDir_self, Option.getD_some,
      List.foldl_cons, List.foldl_nil]
    rw [h, Dir.findFile_writeFile_self]

/-- Witness for C7: saving one wallet, then saving two wallets sharing the
address `0xA`. -/
theorem saveWallets_store_invariant_witness :
    (("0xA.json", FileContent.record ⟨"0xA", "k1", "K1", some "s1"⟩)
          ∈ (FS.lookupDir ([] : FS) "w").getD []
      ∨ ∃ wd : WalletData,
          (FileContent.record ⟨"0xA", "k1", "K1", some "s1"⟩) = FileContent.record wd
          ∧ "0xA.json" = wd.address ++ ".json"
          ∧ ∃ w ∈ [(⟨"0xA", "k1", "K1", some "s1"⟩ : HDNodeWallet)],
              wd = getWalletData w)
    ∧ Dir.findFile
          ((FS.lookupDir (saveWallets
              [⟨"0xA", "k1", "K1", some "s1"⟩, ⟨"0xA", "k2", "K2", some "s2"⟩]
              "w" []) "w").getD [])
          ("0xA" ++ ".json")
        = some (FileContent.record (getWalletData ⟨"0xA", "k2", "K2", some "s2"⟩)) :=
  ⟨(saveWallets_store_invariant [⟨"0xA", "k1", "K1", some "s1"⟩] "w" []).1
      ("0xA.json", FileContent.record ⟨"0xA", "k1", "K1", some "s1"⟩) (by decide),
   (saveWallets_store_invariant [⟨"0xA", "k1", "K1", some "s1"⟩] "w" []).2
      ⟨"0xA", "k1", "K1", some "s1"⟩ ⟨"0xA", "k2", "K2", some "s2"⟩ rfl⟩

/-! ### Claim C2 -/

/-- Directory refuting C2 as universally stated: one well-formed record
file and one file whose content is not valid JSON but whose name lacks the
`.json` suffix. -/
def c2dir : Dir :=
  [("0xAAA.json", FileContent.record ⟨"0xAAA", "k", "K", some "valid seed"⟩),
   ("bad.dat", FileContent.malformed "this is not json")]

/-- Filesystem holding `c2dir` at "wallets". -/
def c2fs : FS := [("wallets", c2dir)]

/-- Concrete derivation function for the C2 counterexample. -/
def c2derive (q : String) : HDNodeWallet := ⟨"0xAAA", "k", "K", some q⟩

/-- C2 counterexample: this directory holds one well-formed record file and
one file with invalid JSON content, and loadWallets returns exactly the
wallet recovered from the record — but logs nothing for the invalid file,
because its name does not end in `.json` and it is skipped before being
read. -/
theorem loadWallets_nonjson_corrupt_unlogged :
    ("bad.dat", FileContent.malformed "this is not json") ∈ c2dir
    ∧ loadWallets c2derive "wallets" c2fs = ([c2derive "valid seed"], []) := by
  constructor
  · decide
  · decide

/-- C2 amended: when both file names carry the `.json` suffix, a directory
holding one well-formed record file (with a truthy phrase) and one file
whose content is not valid JSON yields, in either enumeration order,
exactly the wallet recovered from the record, and the failure of the other
file is logged. -/
theorem loadWallets_corrupt_isolation
    (fromPhrase : String → HDNodeWallet) (walletsDir n1 n2 : String) (fs : FS)
    (wd : WalletData) (p raw : String) (d : Dir)
    (h1 : strEndsWith n1 ".json" = true) (h2 : strEndsWith n2 ".json" = true)
    (hph : wd.phrase = some p) (hp : p ≠ "")
    (hd : d = [(n1, FileContent.record wd), (n2, FileContent.malformed raw)]
        ∨ d = [(n2, FileContent.malformed raw), (n1, FileContent.record wd)])
    (hfs : FS.lookupDir fs walletsDir = some d) :
    loadWallets fromPhrase walletsDir fs
      = ([fromPhrase p], [walletsDir ++ "/" ++ n2]) := by
  rw [loadWallets_eq fromPhrase walletsDir fs d hfs]
  rcases hd with hd | hd <;> subst hd <;>
    simp [List.filterMap_cons, entryWallet, entryLog, h1, h2, hph, hp]

/-- Witness for C2's amended claim at concrete `.json`-named files. -/
theorem loadWallets_corrupt_isolation_witness :
    loadWallets (fun q => ⟨"0xAAA", "k", "K", some q⟩) "wallets"
        [("wallets",
          [("0xAAA.json", FileContent.record ⟨"0xAAA", "k", "K", some "valid seed"⟩),
           ("bad.json", FileContent.malformed "this is not json")])]
      = ([⟨"0xAAA", "k", "K", some "valid seed"⟩], ["wallets" ++ "/" ++ "bad.json"]) :=
  loadWallets_corrupt_isolation (fun q => ⟨"0xAAA", "k", "K", some q⟩) "wallets"
    "0xAAA.json" "bad.json" _
    ⟨"0xAAA", "k", "K", some "valid seed"⟩ "valid seed" "this is not json"
    [("0xAAA.json", FileContent.record ⟨"0xAAA", "k", "K", some "valid seed"⟩),
     ("bad.json", FileContent.malformed "this is not json")]
    (by decide) (by decide) rfl (by decide) (Or.inl rfl) rfl

/-! ### Claim C6: the transfer request object -/

/-- A JavaScript value stored in the transfer request object literal. -/
inductive JsValue where
  | str (s : String)
  | num (n : Nat)
  | big (i : Int)
deriving DecidableEq

/-- The request object literal built by testTransfer (test-transfer.ts
lines 26 to 32) after the sender's pending transaction count (bound to the
variable `nounce`) and the fee estimate's `gasPrice` have been read; the
keys are exactly as spelled in the source, and `value` is
`ethers.parseEther("0.1")` in wei. -/
def transferTxObject (recipientAddress : String) (nounce : Nat) (gasPrice : Int) :
    List (String × JsValue) :=
  [("to", JsValue.str recipientAddress),
   ("value", JsValue.big 100000000000000000),
   ("nounce", JsValue.num nounce),
   ("gasLimit", JsValue.num 21000),
   ("gasPrice", JsValue.big gasPrice)]

/-- Property access on a JavaScript object literal: the value at a key, or
`undefined` (none) when no such key exists. -/
def jsGet (obj : List (String × JsValue)) (key : String) : Option JsValue :=
  match obj with
  | [] => none
  | e :: es => if e.1 = key then some e.2 else jsGet es key

/-- The transaction nonce ethers reads off a request object passed to
`sendTransaction`: the object's `nonce` property (`copyRequest` copies only
recognized keys, ignoring all others). -/
def requestNonce (obj : List (String × JsValue)) : Option JsValue :=
  jsGet obj "nonce"

/-- C6: evaluated at a read pending count of 5 and a gas price of 3, the
request object built by testTransfer carries the count under the misspelled
key `nounce` and carries no `nonce` property at all, so the request
submitted for signing does not carry the nonce that was read; the fee is
carried correctly under `gasPrice`. -/
theorem transferTxObject_nonce_missing :
    requestNonce (transferTxObject "0xB" 5 3) = none
    ∧ jsGet (transferTxObject "0xB" 5 3) "nounce" = some (JsValue.num 5)
    ∧ jsGet (transferTxObject "0xB" 5 3) "gasPrice" = some (JsValue.big 3) := by
  decide

end EthereumMonitor
